import Mathlib

/-!
# Verification of the Excel mapper ETL (`excel_mapper_app.py`)

A shallow embedding of the core pipeline of the Excel mapper application:
key normalization (`normalize`), value coercion (`to_number`), the
merged-cell-aware writer (`write_to_cell`), the source-index loader and the
mapping loop (`runETL`).

Modelling conventions:
* Python cell values are the inductive `Value` (absent cells are `vNone`,
  matching openpyxl, which yields `None` for an empty cell).
* Python floats are modelled as exact rationals (`ℚ`).
* Strings are `List Char`; Unicode-sensitive primitives (`str.lower`,
  `\d`, `str.strip`) are modelled at ASCII, which is all the letters-only
  normalizer and the decimal regex of this program observe.
* A raised exception in the ETL loop is `Except.error ()`; the loop body
  can only raise at `int(target_row)` (unparseable value) and at the
  construction of an invalid cell coordinate (row below 1), both of which
  openpyxl/`int` turn into exceptions that escape the per-row processing.
-/

namespace ExcelMapper

/-- A Python value as it appears in a spreadsheet cell: `None`, a string,
an int, a float (modelled as an exact rational), or a bool. -/
inductive Value where
  | vNone : Value
  | vStr (s : List Char) : Value
  | vInt (n : ℤ) : Value
  | vFloat (q : ℚ) : Value
  | vBool (b : Bool) : Value
deriving DecidableEq

/-- Python truthiness (`bool(v)`): `None`, `""`, `0`, `0.0` and `False`
are falsy, everything else is truthy. Used by `if key:` and
`if not map_key or not target_row:` in the source. -/
def truthy : Value → Bool
  | .vNone => false
  | .vStr s => !s.isEmpty
  | .vInt n => n != 0
  | .vFloat q => q != 0
  | .vBool b => b

/-- Decimal digits of a natural number, most significant first. -/
def natDigits (n : ℕ) : List Char :=
  Nat.toDigits 10 n

/-- Python `str(v)`.  Strings are themselves; ints print in decimal with a
leading `-` when negative; bools print `True`/`False`; `None` prints
`None`.  A float is modelled as `num/den` of the exact rational: Python's
decimal float rendering contains no ASCII letter for the magnitudes this
tool handles, and the letters-only normalizer (the sole consumer of
stringified numbers here) erases both renderings to the same result. -/
def pyStr : Value → List Char
  | .vStr s => s
  | .vInt n => if n < 0 then '-' :: natDigits (-n).toNat else natDigits n.toNat
  | .vFloat q =>
      (if q.num < 0 then '-' :: natDigits (-q.num).toNat else natDigits q.num.toNat)
        ++ '/' :: natDigits q.den
  | .vBool b => if b then ['T', 'r', 'u', 'e'] else ['F', 'a', 'l', 's', 'e']
  | .vNone => ['N', 'o', 'n', 'e']

/-- The function `normalize(text)` from the source: `None` becomes `""`; otherwise the
value is stringified, lowercased and every character that is not an ASCII
letter `a`-`z` is removed (`re.sub(r"[^a-z]", "", text)`). -/
def normalize (text : Value) : List Char :=
  match text with
  | .vNone => []
  | v => ((pyStr v).map Char.toLower).filter Char.isLower

/-- ASCII whitespace for Python's `str.strip()`. -/
def isPyWs (c : Char) : Bool :=
  c = ' ' || c = '\t' || c = '\n' || c = '\r' || c = '\x0b' || c = '\x0c'

/-- Python `str.strip()`: drop leading and trailing whitespace. -/
def pyStrip (s : List Char) : List Char :=
  ((s.dropWhile isPyWs).reverse.dropWhile isPyWs).reverse

/-- Attempt to match `\d+(\.\d+)?` at the start of `s` (greedy, as the
regex engine does): the longest digit run, then a fractional part only
when a `.` is followed by at least one digit. Returns the matched text. -/
def matchNumCore (s : List Char) : Option (List Char) :=
  let ds := s.takeWhile Char.isDigit
  if ds.isEmpty then none
  else
    match s.drop ds.length with
    | '.' :: r =>
        let fs := r.takeWhile Char.isDigit
        if fs.isEmpty then some ds else some (ds ++ '.' :: fs)
    | _ => some ds

/-- Attempt to match `-?\d+(\.\d+)?` anchored at the start of `s`.  The
greedy `-?` first consumes a `-`; if no digits follow, backtracking tries
the empty alternative, which then fails on the `-` itself. -/
def matchNumAt (s : List Char) : Option (List Char) :=
  match s with
  | [] => none
  | c :: rest =>
      if c = '-' then (matchNumCore rest).map (fun m => '-' :: m)
      else matchNumCore (c :: rest)

/-- Model of `re.search(r"-?\d+(\.\d+)?", text)`: the leftmost position where the
pattern matches wins. -/
def reSearchNum : List Char → Option (List Char)
  | [] => none
  | c :: rest =>
      match matchNumAt (c :: rest) with
      | some m => some m
      | none => reSearchNum rest

/-- Value of a digit run read in base 10. -/
def digitsToNat (ds : List Char) : ℕ :=
  ds.foldl (fun a c => a * 10 + (c.toNat - 48)) 0

/-- Value of `float(m)` for an unsigned match `digits(.digits)?`: the exact
rational `intpart.fracpart`, written over the power-of-ten denominator. -/
def parseNumPos (s : List Char) : ℚ :=
  let ds := s.takeWhile Char.isDigit
  match s.drop ds.length with
  | '.' :: r =>
      let fs := r.takeWhile Char.isDigit
      mkRat (digitsToNat ds * 10 ^ fs.length + digitsToNat fs) (10 ^ fs.length)
  | _ => (digitsToNat ds : ℚ)

/-- Value of `float(m)` for a match of `-?\d+(\.\d+)?`, exactly. -/
def parseNum (s : List Char) : ℚ :=
  match s with
  | '-' :: rest => -(parseNumPos rest)
  | _ => parseNumPos s

/-- The string cleaning of `to_number`:
`str(value).replace(",", "").replace("₹", "").strip()`. -/
def cleanNumText (s : List Char) : List Char :=
  pyStrip ((s.filter (fun c => c ≠ ',')).filter (fun c => c ≠ '₹'))

/-- The function `to_number(value)` from the source: `None` gives `0`; ints, floats and
bools pass through `float(value)`; a string is cleaned of `,` and `₹`,
stripped, and the leftmost `-?\d+(\.\d+)?` substring is parsed, with `0`
when no such substring exists.  Total by construction: it never raises. -/
def to_number (value : Value) : ℚ :=
  match value with
  | .vNone => 0
  | .vInt n => (n : ℚ)
  | .vFloat q => q
  | .vBool b => if b then 1 else 0
  | .vStr s =>
      match reSearchNum (cleanNumText s) with
      | some m => parseNum m
      | none => 0

/-- Python `round(x)` with no digits argument: round half to even,
returning an integer.  With `f = ⌊q⌋`, the fractional part `q - f` is
compared to `1/2` by cross-multiplying with the (positive) denominator:
`q - f < 1/2  ↔  2(num - f·den) < den`. -/
def pyRound (q : ℚ) : ℤ :=
  let f : ℤ := q.num.fdiv (q.den : ℤ)
  let r2 : ℤ := 2 * (q.num - f * (q.den : ℤ))
  if r2 < (q.den : ℤ) then f
  else if (q.den : ℤ) < r2 then f + 1
  else if f % 2 = 0 then f else f + 1

/-- Python `int(value)`: ints pass through, bools become `0`/`1`, floats
truncate toward zero, and a string must be (after stripping whitespace) an
optional sign followed by one or more digits; anything else — including
`None` and non-numeric strings — raises, modelled as `none`. -/
def pyInt : Value → Option ℤ
  | .vInt n => some n
  | .vBool b => some (if b then 1 else 0)
  | .vFloat q => some (if 0 ≤ q then ⌊q⌋ else ⌈q⌉)
  | .vStr s =>
      let t := pyStrip s
      match t with
      | '-' :: ds => if !ds.isEmpty && ds.all Char.isDigit then some (-(digitsToNat ds : ℤ)) else none
      | '+' :: ds => if !ds.isEmpty && ds.all Char.isDigit then some (digitsToNat ds : ℤ) else none
      | ds => if !ds.isEmpty && ds.all Char.isDigit then some (digitsToNat ds : ℤ) else none
  | .vNone => none

/-- A cell address `(column, row)`, both 1-based; column `G` is 7 and
column `J` is 10. -/
structure CellAddr where
  col : ℕ
  row : ℕ
deriving DecidableEq

/-- A merged region of the target sheet, as openpyxl's `CellRange`
bounds. -/
structure MergedRange where
  min_row : ℕ
  min_col : ℕ
  max_row : ℕ
  max_col : ℕ
deriving DecidableEq

/-- Test `cell_address in merged_range`: bound containment on both axes. -/
def inRange (a : CellAddr) (mr : MergedRange) : Bool :=
  mr.min_col ≤ a.col && a.col ≤ mr.max_col && mr.min_row ≤ a.row && a.row ≤ mr.max_row

/-- The anchor (top-left) cell of a merged region. -/
def MergedRange.anchor (mr : MergedRange) : CellAddr :=
  ⟨mr.min_col, mr.min_row⟩

/-- A writable worksheet: a total cell-value assignment (empty cells hold
`vNone`) plus the list of merged regions, in `ws.merged_cells.ranges`
iteration order. -/
structure Worksheet where
  cells : CellAddr → Value
  merged : List MergedRange

/-- The cell a write to `a` actually lands on: the anchor of the first
merged region containing `a`, or `a` itself when no region contains it. -/
def resolveCell (merged : List MergedRange) (a : CellAddr) : CellAddr :=
  match merged.find? (fun mr => inRange a mr) with
  | some mr => mr.anchor
  | none => a

/-- The function `write_to_cell(ws, cell_address, value)` from the source: scan the
merged regions; on the first one containing the address, assign the value
to that region's anchor cell and return; otherwise assign to the address
itself. -/
def write_to_cell (ws : Worksheet) (a : CellAddr) (v : Value) : Worksheet :=
  { ws with cells := fun c => if c = resolveCell ws.merged a then v else ws.cells c }

/-- A read-only sheet: `cell col row` is the value of the cell at the
1-based column/row, `vNone` when empty; `maxRow` is openpyxl's
`ws.max_row`. -/
structure Sheet where
  maxRow : ℕ
  cell : ℕ → ℕ → Value

/-- One entry of the in-memory source index, as built by the loader. -/
structure SourceRecord where
  raw_key : List Char
  norm_key : List Char
  current : ℚ
  previous : ℚ
deriving DecidableEq

/-- Model of `range(2, ws.max_row + 1)`: the data rows of a sheet. -/
def dataRows (ws : Sheet) : List ℕ :=
  List.range' 2 (ws.maxRow + 1 - 2)

/-- The source-index loader: scan rows 2..max_row of the source sheet,
reading column B (key), D (current) and F (previous); a row contributes a
`SourceRecord` exactly when `if key:` holds, i.e. when the column-B value
is truthy. -/
def loadSourceData (ws : Sheet) : List SourceRecord :=
  (dataRows ws).filterMap fun r =>
    let key := ws.cell 2 r
    if truthy key then
      some { raw_key := pyStr key
             norm_key := normalize key
             current := to_number (ws.cell 4 r)
             previous := to_number (ws.cell 6 r) }
    else none

/-- Substring containment, Python's `small in big` for strings. -/
def containsSub (big small : List Char) : Bool :=
  (List.range (big.length + 1)).any fun i => small.isPrefixOf (big.drop i)

/-- The match predicate of the mapping loop:
`norm_map_key in src["norm_key"] or src["norm_key"] in norm_map_key`. -/
def matchPred (normMapKey : List Char) (src : SourceRecord) : Bool :=
  containsSub src.norm_key normMapKey || containsSub normMapKey src.norm_key

/-- Model of `next((src for src in source_data if ...), None)`: the first source
record, in load order, satisfying the symmetric containment test. -/
def findMatch (sourceData : List SourceRecord) (normMapKey : List Char) :
    Option SourceRecord :=
  sourceData.find? (matchPred normMapKey)

/-- The mutable state of the mapping loop: `filled`, `missing_keys` and
the target worksheet. -/
structure ETLState where
  filled : ℕ
  missing_keys : List Value
  target : Worksheet

/-- One iteration of the mapping loop at mapping-sheet row `r`: skip when
column A or column B is falsy; on no match append the original column-A
value to `missing_keys`; on a match parse the target row with
`int(target_row)` (raising — `Except.error` — on an unparseable value or
a resulting row below 1, which openpyxl rejects as a coordinate), round
the scaled values and write them through `write_to_cell` at `G{row}` and
`J{row}`, and increment `filled`. -/
def etlStep (sourceData : List SourceRecord) (mws : Sheet) (factor : ℚ)
    (st : ETLState) (r : ℕ) : Except Unit ETLState :=
  let mapKey := mws.cell 1 r
  let targetRow := mws.cell 2 r
  if !(truthy mapKey && truthy targetRow) then .ok st
  else
    match findMatch sourceData (normalize mapKey) with
    | none => .ok { st with missing_keys := st.missing_keys ++ [mapKey] }
    | some m =>
        match pyInt targetRow with
        | none => .error ()
        | some tr =>
            if tr < 1 then .error ()
            else
              let currValue := pyRound (m.current * factor)
              let prevValue := pyRound (m.previous * factor)
              .ok { st with
                    filled := st.filled + 1
                    target :=
                      write_to_cell
                        (write_to_cell st.target ⟨7, tr.toNat⟩ (.vInt currValue))
                        ⟨10, tr.toNat⟩ (.vInt prevValue) }

/-- The mapping loop over a list of row indices, threading the state and
propagating a raised exception. -/
def etlLoop (sourceData : List SourceRecord) (mws : Sheet) (factor : ℚ) :
    List ℕ → ETLState → Except Unit ETLState
  | [], st => .ok st
  | r :: rs, st =>
      match etlStep sourceData mws factor st r with
      | .error e => .error e
      | .ok st' => etlLoop sourceData mws factor rs st'

/-- The whole ETL run: load the source index from the source sheet, then
run the mapping loop over rows 2..max_row of the mapping sheet against the
target worksheet, starting from `filled = 0` and `missing_keys = []`. -/
def runETL (sws mws : Sheet) (tws : Worksheet) (factor : ℚ) :
    Except Unit ETLState :=
  etlLoop (loadSourceData sws) mws factor (dataRows mws) ⟨0, [], tws⟩

/-- The ETL at the document level: the run mutates only the worksheet
selected by `targetSheet`; every other sheet of the target document is the
one the caller supplied. -/
def runETLDoc (sws mws : Sheet) (doc : List Char → Worksheet)
    (targetSheet : List Char) (factor : ℚ) :
    Except Unit (ETLState × (List Char → Worksheet)) :=
  match runETL sws mws (doc targetSheet) factor with
  | .ok st => .ok (st, fun n => if n = targetSheet then st.target else doc n)
  | .error e => .error e

/-! ## Specification-side views of the run

These definitions restate the loop's bookkeeping without threading state,
so that the loop theorems can compare the imperative run against them. -/

/-- A mapping row is processed (not skipped) when both column A and
column B are truthy. -/
def rowProcessed (mws : Sheet) (r : ℕ) : Bool :=
  truthy (mws.cell 1 r) && truthy (mws.cell 2 r)

/-- The match the loop finds for mapping row `r`. -/
def rowMatch (sd : List SourceRecord) (mws : Sheet) (r : ℕ) : Option SourceRecord :=
  findMatch sd (normalize (mws.cell 1 r))

/-- The processed mapping rows that match some source record. -/
def matchedRows (sd : List SourceRecord) (mws : Sheet) : List ℕ :=
  (dataRows mws).filter fun r => rowProcessed mws r && (rowMatch sd mws r).isSome

/-- The processed mapping rows that match no source record. -/
def unmatchedRows (sd : List SourceRecord) (mws : Sheet) : List ℕ :=
  (dataRows mws).filter fun r => rowProcessed mws r && !(rowMatch sd mws r).isSome

/-- The writes mapping row `r` issues: for a processed, matched row whose
column-B value parses to a row number `tr ≥ 1`, the rounded scaled current
value at `G{tr}` then the rounded scaled previous value at `J{tr}`. -/
def rowWrites (sd : List SourceRecord) (mws : Sheet) (factor : ℚ) (r : ℕ) :
    List (CellAddr × Value) :=
  if rowProcessed mws r then
    match rowMatch sd mws r with
    | some m =>
        match pyInt (mws.cell 2 r) with
        | some tr =>
            if 1 ≤ tr then
              [(⟨7, tr.toNat⟩, .vInt (pyRound (m.current * factor))),
               (⟨10, tr.toNat⟩, .vInt (pyRound (m.previous * factor)))]
            else []
        | none => []
    | none => []
  else []

/-- Issue a list of writes through the merged-cell-aware writer, in
order. -/
def applyWrites (ws : Worksheet) (l : List (CellAddr × Value)) : Worksheet :=
  l.foldl (fun w p => write_to_cell w p.1 p.2) ws

/-- All writes of a run, in loop order. -/
def allWrites (sd : List SourceRecord) (mws : Sheet) (factor : ℚ) :
    List (CellAddr × Value) :=
  (dataRows mws).flatMap (rowWrites sd mws factor)

/-- Two merged regions overlap when they share at least one cell. -/
def rangesOverlap (mr mr' : MergedRange) : Bool :=
  max mr.min_col mr'.min_col ≤ min mr.max_col mr'.max_col &&
  max mr.min_row mr'.min_row ≤ min mr.max_row mr'.max_row

/-- Pairwise disjointness of the merged regions of a sheet — the invariant
every valid workbook satisfies (Excel forbids overlapping merges). -/
def disjointMerged (l : List MergedRange) : Prop :=
  l.Pairwise fun a b => rangesOverlap a b = false

/-! ## Concrete fixtures

Small concrete workbooks used to instantiate the theorems: the spec's
end-to-end scenarios (`Acme`/`Globex`) and the inputs exhibiting the
divergences. -/

/-- Source sheet: row 2 has key `"Acme Corp"`, current `100`,
previous `200`. -/
def srcAcme : Sheet :=
  ⟨2, fun c r =>
    if c = 2 && r = 2 then .vStr "Acme Corp".data
    else if c = 4 && r = 2 then .vInt 100
    else if c = 6 && r = 2 then .vInt 200
    else .vNone⟩

/-- Mapping sheet: row 2 maps key `"ACME CORP."` to target row `5`. -/
def mapAcme : Sheet :=
  ⟨2, fun c r =>
    if c = 1 && r = 2 then .vStr "ACME CORP.".data
    else if c = 2 && r = 2 then .vInt 5
    else .vNone⟩

/-- Mapping sheet: row 2 maps key `"Globex"` (matching nothing in
`srcAcme`) to target row `5`. -/
def mapGlobex : Sheet :=
  ⟨2, fun c r =>
    if c = 1 && r = 2 then .vStr "Globex".data
    else if c = 2 && r = 2 then .vInt 5
    else .vNone⟩

/-- Mapping sheet: row 2 has a matching key but the non-numeric string
`"abc"` in the target-row column. -/
def mapBadRow : Sheet :=
  ⟨2, fun c r =>
    if c = 1 && r = 2 then .vStr "Acme".data
    else if c = 2 && r = 2 then .vStr "abc".data
    else .vNone⟩

/-- Source sheet whose only key cell holds the integer `0`: a non-empty
cell that Python truthiness rejects. -/
def srcZeroKey : Sheet :=
  ⟨2, fun c r => if c = 2 && r = 2 then .vInt 0 else .vNone⟩

/-- Source sheet whose row-2 key is the integer `7` (letters-free, so its
normalized key is empty), with current `3` and previous `4`. -/
def srcNumKey : Sheet :=
  ⟨2, fun c r =>
    if c = 2 && r = 2 then .vInt 7
    else if c = 4 && r = 2 then .vInt 3
    else if c = 6 && r = 2 then .vInt 4
    else .vNone⟩

/-- Source sheet whose row-2 value cells hold unparseable text (a per-row
data error that `to_number` coerces to `0`). -/
def srcJunkValues : Sheet :=
  ⟨2, fun c r =>
    if c = 2 && r = 2 then .vStr "Acme Corp".data
    else if c = 4 && r = 2 then .vStr "no digits".data
    else if c = 6 && r = 2 then .vStr "n/a".data
    else .vNone⟩

/-- An empty target worksheet with no merged regions. -/
def tgtEmpty : Worksheet := ⟨fun _ => .vNone, []⟩

/-- A target worksheet whose only content is a merged region spanning
rows 1–2, columns 1–2 (anchor `A1`). -/
def tgtMerged : Worksheet := ⟨fun _ => .vNone, [⟨1, 1, 2, 2⟩]⟩

/-- The state the Acme scenario ends in: one filled row, no missing keys,
`G5 = 200` and `J5 = 400` written into the empty target. -/
def acmeFinal : ETLState :=
  ⟨1, [],
    write_to_cell (write_to_cell tgtEmpty ⟨7, 5⟩ (.vInt 200)) ⟨10, 5⟩ (.vInt 400)⟩

/-- The state the numeric-key scenario (`srcNumKey`, `mapGlobex`,
factor 1) ends in: the mapping row matches the letters-free source key, so
`G5 = 3`, `J5 = 4` and no key is missing. -/
def numKeyFinal : ETLState :=
  ⟨1, [],
    write_to_cell (write_to_cell tgtEmpty ⟨7, 5⟩ (.vInt 3)) ⟨10, 5⟩ (.vInt 4)⟩

/-- A one-sheet target document: every sheet name resolves to the empty
worksheet. -/
def docEmpty : List Char → Worksheet := fun _ => tgtEmpty

/-- The document the Acme scenario produces when its target sheet is named
`"T"`. -/
def acmeFinalDoc : List Char → Worksheet :=
  fun n => if n = "T".data then acmeFinal.target else docEmpty n

/-! ## Helper lemmas -/

/-- The empty string is a substring of every string. -/
lemma containsSub_nil (big : List Char) : containsSub big [] = true := by
  simp only [containsSub, List.any_eq_true]
  exact ⟨0, List.mem_range.mpr (Nat.succ_pos _), by cases big <;> rfl⟩

/-- An ASCII lowercase letter sits between `'a'` and `'z'`. -/
lemma isLower_bounds {c : Char} (h : c.isLower = true) : 'a' ≤ c ∧ c ≤ 'z' := by
  simp only [Char.isLower, Bool.and_eq_true, decide_eq_true_eq, ge_iff_le] at h
  exact ⟨h.1, h.2⟩

/-- A digit-free string has an empty leading digit run. -/
lemma takeWhile_isDigit_eq_nil {s : List Char} (h : ∀ c ∈ s, c.isDigit = false) :
    s.takeWhile Char.isDigit = [] := by
  cases s with
  | nil => rfl
  | cons c cs => simp [List.takeWhile_cons, h c (List.mem_cons_self c cs)]

/-- The number pattern cannot match at the start of a digit-free string. -/
lemma matchNumCore_eq_none {s : List Char} (h : ∀ c ∈ s, c.isDigit = false) :
    matchNumCore s = none := by
  simp [matchNumCore, takeWhile_isDigit_eq_nil h]

/-- The signed number pattern cannot match at the start of a digit-free
string. -/
lemma matchNumAt_eq_none {s : List Char} (h : ∀ c ∈ s, c.isDigit = false) :
    matchNumAt s = none := by
  cases s with
  | nil => rfl
  | cons c cs =>
    have hcs : ∀ x ∈ cs, x.isDigit = false := fun x hx => h x (List.mem_cons_of_mem c hx)
    by_cases hc : c = '-'
    · simp [matchNumAt, hc, matchNumCore_eq_none hcs]
    · simp [matchNumAt, hc, matchNumCore_eq_none h]

/-- The regex search over a digit-free string fails. -/
lemma reSearchNum_eq_none {s : List Char} (h : ∀ c ∈ s, c.isDigit = false) :
    reSearchNum s = none := by
  induction s with
  | nil => rfl
  | cons c cs ih =>
    have hcs : ∀ x ∈ cs, x.isDigit = false := fun x hx => h x (List.mem_cons_of_mem c hx)
    simp [reSearchNum, matchNumAt_eq_none h, ih hcs]

/-- Stripping whitespace only removes characters. -/
lemma pyStrip_subset (s : List Char) : pyStrip s ⊆ s := by
  intro c hc
  simp only [pyStrip, List.mem_reverse] at hc
  have h1 := (List.dropWhile_sublist isPyWs).subset hc
  rw [List.mem_reverse] at h1
  exact (List.dropWhile_sublist isPyWs).subset h1

/-! ## Theorems for the claims -/

/-- C3: `normalize` sends `None` to the empty string; every character of
any output is an ASCII letter between `'a'` and `'z'`; and
`normalize("A-1 b") = "ab"`. -/
theorem normalize_letters_only :
    normalize .vNone = [] ∧
    (∀ v : Value, ∀ c ∈ normalize v, 'a' ≤ c ∧ c ≤ 'z') ∧
    normalize (.vStr "A-1 b".data) = "ab".data := by
  refine ⟨rfl, ?_, by decide⟩
  intro v c hc
  cases v with
  | vNone => simp [normalize] at hc
  | vStr s => exact isLower_bounds (List.mem_filter.mp hc).2
  | vInt n => exact isLower_bounds (List.mem_filter.mp hc).2
  | vFloat q => exact isLower_bounds (List.mem_filter.mp hc).2
  | vBool b => exact isLower_bounds (List.mem_filter.mp hc).2

/-- C3 witness: instantiating the letters-only bound at a concrete input
and character. -/
theorem normalize_letters_only_witness :
    normalize (.vStr "A-1 b".data) = "ab".data ∧ ('a' ≤ 'b' ∧ 'b' ≤ 'z') :=
  ⟨normalize_letters_only.2.2,
   normalize_letters_only.2.1 (.vStr "A-1 b".data) 'b' (by decide)⟩

/-- C4: `to_number` maps `None` to `0`, passes numeric input through
unchanged, parses `"₹1,234.50"` to `1234.5`, returns `0` on any digit-free
string (in particular `"no digits here"`), and `to_number(42) = 42`. -/
theorem to_number_spec :
    to_number .vNone = 0 ∧
    (∀ n : ℤ, to_number (.vInt n) = (n : ℚ)) ∧
    (∀ q : ℚ, to_number (.vFloat q) = q) ∧
    to_number (.vStr "₹1,234.50".data) = 1234.5 ∧
    (∀ s : List Char, (∀ c ∈ s, c.isDigit = false) → to_number (.vStr s) = 0) ∧
    to_number (.vStr "no digits here".data) = 0 ∧
    to_number (.vInt 42) = 42 := by
  refine ⟨rfl, fun n => rfl, fun q => rfl, ?_, ?_, by decide, by decide⟩
  · have h : to_number (.vStr "₹1,234.50".data) = mkRat 2469 2 := by decide
    rw [h, Rat.mkRat_eq_div]
    norm_num
  intro s h
  have hclean : ∀ c ∈ cleanNumText s, c.isDigit = false := by
    intro c hc
    have h1 := pyStrip_subset _ hc
    exact h c (List.mem_of_mem_filter (List.mem_of_mem_filter h1))
  simp only [to_number]
  rw [reSearchNum_eq_none hclean]

/-- C4 witness: the digit-free clause applied at a concrete string. -/
theorem to_number_spec_witness :
    to_number (.vStr "---".data) = 0 :=
  to_number_spec.2.2.2.2.1 "---".data (by decide)

/-- C2: `findMatch` returns `some m` exactly when `m` passes the
symmetric containment test and every earlier record of the source index
fails it (first match in load order wins, with no scoring among later
candidates); the test is `nk ⊆ key ∨ key ⊆ nk`, and containment-either-way
is order-symmetric. -/
theorem findMatch_first_symmetric (sd : List SourceRecord) (nk : List Char)
    (m : SourceRecord) :
    (findMatch sd nk = some m ↔
      matchPred nk m = true ∧
      ∃ pre post, sd = pre ++ m :: post ∧ ∀ src ∈ pre, matchPred nk src = false) ∧
    (∀ src : SourceRecord,
      matchPred nk src =
        (containsSub src.norm_key nk || containsSub nk src.norm_key)) ∧
    (∀ a b : List Char,
      (containsSub a b || containsSub b a) = (containsSub b a || containsSub a b)) := by
  refine ⟨?_, fun src => rfl, fun a b => Bool.or_comm _ _⟩
  rw [findMatch, List.find?_eq_some]
  simp [Bool.not_eq_true']

/-- The record `loadSourceData` builds from the Acme source sheet. -/
def recAcme : SourceRecord :=
  ⟨"Acme Corp".data, "acmecorp".data, 100, 200⟩

/-- C2 witness: on the one-record index, the normalized key
`"acmecorp"` matches that record, decomposed as the characterization
states, and the predicate is the stated symmetric containment. -/
theorem findMatch_first_symmetric_witness :
    findMatch [recAcme] "acmecorp".data = some recAcme ∧
    matchPred "acmecorp".data recAcme =
      (containsSub recAcme.norm_key "acmecorp".data ||
       containsSub "acmecorp".data recAcme.norm_key) :=
  ⟨(findMatch_first_symmetric [recAcme] "acmecorp".data recAcme).1.mpr
      ⟨by decide, [], [], rfl, by simp⟩,
   (findMatch_first_symmetric [recAcme] "acmecorp".data recAcme).2.1 recAcme⟩

/-! ## Case equations for one loop iteration -/

/-- A skipped row (falsy column A or B) leaves the state unchanged. -/
lemma etlStep_not_processed {sd : List SourceRecord} {mws : Sheet} {factor : ℚ}
    {st : ETLState} {r : ℕ} (h : rowProcessed mws r = false) :
    etlStep sd mws factor st r = .ok st := by
  rw [rowProcessed] at h
  simp [etlStep, h]

/-- A processed row with no match appends the original column-A value to
`missing_keys` and nothing else. -/
lemma etlStep_unmatched {sd : List SourceRecord} {mws : Sheet} {factor : ℚ}
    {st : ETLState} {r : ℕ} (h1 : rowProcessed mws r = true)
    (h2 : rowMatch sd mws r = none) :
    etlStep sd mws factor st r =
      .ok { st with missing_keys := st.missing_keys ++ [mws.cell 1 r] } := by
  rw [rowProcessed] at h1
  rw [rowMatch, findMatch] at h2
  simp [etlStep, h1, findMatch, h2]

/-- A processed, matched row with a parseable target row `tr ≥ 1` writes
the two rounded scaled values at `G{tr}` and `J{tr}` and increments
`filled`. -/
lemma etlStep_matched {sd : List SourceRecord} {mws : Sheet} {factor : ℚ}
    {st : ETLState} {r : ℕ} {m : SourceRecord} {tr : ℤ}
    (h1 : rowProcessed mws r = true) (h2 : rowMatch sd mws r = some m)
    (h3 : pyInt (mws.cell 2 r) = some tr) (h4 : 1 ≤ tr) :
    etlStep sd mws factor st r =
      .ok { st with
            filled := st.filled + 1
            target :=
              write_to_cell
                (write_to_cell st.target ⟨7, tr.toNat⟩
                  (.vInt (pyRound (m.current * factor))))
                ⟨10, tr.toNat⟩ (.vInt (pyRound (m.previous * factor))) } := by
  rw [rowProcessed] at h1
  rw [rowMatch, findMatch] at h2
  have h4' : ¬ tr < 1 := not_lt.mpr h4
  simp [etlStep, h1, findMatch, h2, h3, h4']

/-- A processed, matched row whose column-B value `int()` cannot parse
raises, aborting the run. -/
lemma etlStep_err_parse {sd : List SourceRecord} {mws : Sheet} {factor : ℚ}
    {st : ETLState} {r : ℕ} {m : SourceRecord}
    (h1 : rowProcessed mws r = true) (h2 : rowMatch sd mws r = some m)
    (h3 : pyInt (mws.cell 2 r) = none) :
    etlStep sd mws factor st r = .error () := by
  rw [rowProcessed] at h1
  rw [rowMatch, findMatch] at h2
  simp [etlStep, h1, findMatch, h2, h3]

/-- A processed, matched row whose parsed target row is below 1 produces
an invalid cell coordinate, aborting the run. -/
lemma etlStep_err_row {sd : List SourceRecord} {mws : Sheet} {factor : ℚ}
    {st : ETLState} {r : ℕ} {m : SourceRecord} {tr : ℤ}
    (h1 : rowProcessed mws r = true) (h2 : rowMatch sd mws r = some m)
    (h3 : pyInt (mws.cell 2 r) = some tr) (h4 : tr < 1) :
    etlStep sd mws factor st r = .error () := by
  rw [rowProcessed] at h1
  rw [rowMatch, findMatch] at h2
  simp [etlStep, h1, findMatch, h2, h3, h4]

/-- Issuing writes in sequence splits over list append. -/
lemma applyWrites_append (ws : Worksheet) (l₁ l₂ : List (CellAddr × Value)) :
    applyWrites ws (l₁ ++ l₂) = applyWrites (applyWrites ws l₁) l₂ := by
  simp [applyWrites, List.foldl_append]

/-- The merged-region list survives a write. -/
lemma write_to_cell_merged (ws : Worksheet) (a : CellAddr) (v : Value) :
    (write_to_cell ws a v).merged = ws.merged := rfl

/-- The merged-region list survives any sequence of writes. -/
lemma applyWrites_merged (l : List (CellAddr × Value)) (ws : Worksheet) :
    (applyWrites ws l).merged = ws.merged := by
  induction l generalizing ws with
  | nil => rfl
  | cons p rest ih => simpa [applyWrites] using ih (write_to_cell ws p.1 p.2)

/-- The mapping loop, when it completes, computes exactly the spec-side
bookkeeping: `filled` grows by the number of processed matched rows,
`missing_keys` is extended by the original column-A values of the
processed unmatched rows in order, and the target receives the
concatenated per-row writes in order. -/
lemma etlLoop_ok_spec (sd : List SourceRecord) (mws : Sheet) (factor : ℚ)
    (rows : List ℕ) :
    ∀ (st st' : ETLState),
      etlLoop sd mws factor rows st = .ok st' →
      st'.filled = st.filled +
        (rows.filter fun r => rowProcessed mws r && (rowMatch sd mws r).isSome).length ∧
      st'.missing_keys = st.missing_keys ++
        ((rows.filter fun r => rowProcessed mws r && !(rowMatch sd mws r).isSome).map
          fun r => mws.cell 1 r) ∧
      st'.target = applyWrites st.target (rows.flatMap (rowWrites sd mws factor)) := by
  induction rows with
  | nil =>
      intro st st' h
      injection h with h
      subst h
      simp [applyWrites]
  | cons r rs ih =>
      intro st st' h
      rw [etlLoop] at h
      cases hstep : etlStep sd mws factor st r with
      | error e => rw [hstep] at h; cases h
      | ok st1 =>
          rw [hstep] at h
          obtain ⟨ihf, ihm, iht⟩ := ih st1 st' h
          by_cases hp : rowProcessed mws r = true
          · cases hm : rowMatch sd mws r with
            | none =>
                rw [etlStep_unmatched hp hm] at hstep
                injection hstep with hstep
                subst hstep
                refine ⟨?_, ?_, ?_⟩
                · simpa [List.filter_cons, hp, hm] using ihf
                · simpa [List.filter_cons, hp, hm] using ihm
                · simpa [List.flatMap_cons, rowWrites, hp, hm] using iht
            | some m =>
                cases hpi : pyInt (mws.cell 2 r) with
                | none =>
                    rw [etlStep_err_parse hp hm hpi] at hstep
                    cases hstep
                | some tr =>
                    by_cases htr : tr < 1
                    · rw [etlStep_err_row hp hm hpi htr] at hstep
                      cases hstep
                    · have htr' : 1 ≤ tr := not_lt.mp htr
                      rw [etlStep_matched hp hm hpi htr'] at hstep
                      injection hstep with hstep
                      subst hstep
                      refine ⟨?_, ?_, ?_⟩
                      · simpa [List.filter_cons, hp, hm, Nat.add_assoc,
                          Nat.add_comm 1] using ihf
                      · simpa [List.filter_cons, hp, hm] using ihm
                      · rw [iht]
                        simp only [List.flatMap_cons, rowWrites, hp, hm, hpi,
                          htr', if_pos, if_true, applyWrites_append]
                        rfl
          · have hp' : rowProcessed mws r = false := by
              simpa using hp
            rw [etlStep_not_processed hp'] at hstep
            injection hstep with hstep
            subst hstep
            refine ⟨?_, ?_, ?_⟩
            · simpa [List.filter_cons, hp'] using ihf
            · simpa [List.filter_cons, hp'] using ihm
            · simpa [List.flatMap_cons, rowWrites, hp'] using iht

/-- C1: a completed run fills exactly the processed matched mapping rows
— for each such row, `round(current · factor)` is written at `G{tr}` and
`round(previous · factor)` at `J{tr}`, `tr` the integer parsed from the
row's column-B value, through the merged-cell-aware writer in loop order
(this is `allWrites`) — and `filled` equals the number of matched rows
while `missing_keys` has one entry per processed unmatched row. -/
theorem etl_counts_and_writes (sws mws : Sheet) (tws : Worksheet) (factor : ℚ)
    (st' : ETLState) (h : runETL sws mws tws factor = .ok st') :
    st'.filled = (matchedRows (loadSourceData sws) mws).length ∧
    st'.missing_keys.length = (unmatchedRows (loadSourceData sws) mws).length ∧
    st'.target = applyWrites tws (allWrites (loadSourceData sws) mws factor) := by
  rw [runETL] at h
  obtain ⟨hf, hm, ht⟩ :=
    etlLoop_ok_spec (loadSourceData sws) mws factor (dataRows mws) ⟨0, [], tws⟩ st' h
  exact ⟨by simpa [matchedRows] using hf,
         by simp [hm, unmatchedRows],
         by simpa [allWrites] using ht⟩

attribute [local semireducible] Rat.mul in
/-- C1 witness: the spec's end-to-end Acme scenario — source row
`("Acme Corp", 100, 200)`, mapping row `("ACME CORP.", 5)`, factor `2` —
completes in `acmeFinal` (which has `G5 = 200`, `J5 = 400`, one filled
row, no missing keys) and satisfies the counting and write equations. -/
theorem etl_counts_and_writes_witness :
    acmeFinal.filled = (matchedRows (loadSourceData srcAcme) mapAcme).length ∧
    acmeFinal.missing_keys.length =
      (unmatchedRows (loadSourceData srcAcme) mapAcme).length ∧
    acmeFinal.target = applyWrites tgtEmpty (allWrites (loadSourceData srcAcme) mapAcme 2) :=
  etl_counts_and_writes srcAcme mapAcme tgtEmpty 2 acmeFinal (by rfl)

/-- A merged region containing any cell contains its own anchor. -/
lemma anchor_inRange {a : CellAddr} {mr : MergedRange} (h : inRange a mr = true) :
    inRange mr.anchor mr = true := by
  simp only [inRange, MergedRange.anchor, Bool.and_eq_true, decide_eq_true_eq] at h ⊢
  omega

/-- Two merged regions sharing a cell overlap. -/
lemma rangesOverlap_of_mem {a : CellAddr} {mr mr' : MergedRange}
    (h : inRange a mr = true) (h' : inRange a mr' = true) :
    rangesOverlap mr mr' = true := by
  simp only [inRange, Bool.and_eq_true, decide_eq_true_eq] at h h'
  simp only [rangesOverlap, Bool.and_eq_true, decide_eq_true_eq,
    Nat.max_le, Nat.le_min]
  omega

/-- Overlap is symmetric. -/
lemma rangesOverlap_comm (mr mr' : MergedRange) :
    rangesOverlap mr mr' = rangesOverlap mr' mr := by
  simp only [rangesOverlap, Nat.max_comm, Nat.min_comm]

/-- Under pairwise disjointness, a cell lies in at most one merged
region. -/
lemma disjoint_unique_range {l : List MergedRange} {a : CellAddr}
    {mr mr' : MergedRange} (hd : disjointMerged l) (h1 : mr ∈ l) (h2 : mr' ∈ l)
    (ha : inRange a mr = true) (ha' : inRange a mr' = true) : mr = mr' := by
  by_contra hne
  have hsymm : Symmetric fun x y : MergedRange => rangesOverlap x y = false := by
    intro x y hxy
    rw [rangesOverlap_comm]
    exact hxy
  have := hd.forall hsymm h1 h2 hne
  rw [rangesOverlap_of_mem ha ha'] at this
  cases this

/-- Under pairwise disjointness, a write addressed inside region `mr`
resolves to `mr`'s anchor. -/
lemma resolveCell_of_mem {l : List MergedRange} {a : CellAddr} {mr : MergedRange}
    (hd : disjointMerged l) (hm : mr ∈ l) (ha : inRange a mr = true) :
    resolveCell l a = mr.anchor := by
  have hsome : (l.find? fun mr' => inRange a mr').isSome :=
    List.find?_isSome.mpr ⟨mr, hm, ha⟩
  obtain ⟨mr0, hmr0⟩ := Option.isSome_iff_exists.mp hsome
  have h0a : inRange a mr0 = true := List.find?_some hmr0
  have h0m : mr0 ∈ l := List.mem_of_find?_eq_some hmr0
  rw [resolveCell, hmr0, disjoint_unique_range hd h0m hm h0a ha]

/-- Writing to a cell not in any merged region resolves to the cell
itself. -/
lemma resolveCell_of_not_mem {l : List MergedRange} {a : CellAddr}
    (h : ∀ mr ∈ l, inRange a mr = false) : resolveCell l a = a := by
  rw [resolveCell, List.find?_eq_none.mpr]
  intro mr hm
  simp [h mr hm]

/-- C5: with disjoint merged regions (every valid workbook), a write
addressed anywhere inside a merged region lands on that region's anchor
and changes nothing else; no write ever changes a non-anchor cell of any
merged region; and writing the same logical address twice is idempotent —
both writes land on the same cell and the last one wins. -/
theorem write_to_cell_merged_aware :
    (∀ (ws : Worksheet) (a : CellAddr) (v : Value) (mr : MergedRange),
      disjointMerged ws.merged → mr ∈ ws.merged → inRange a mr = true →
      (write_to_cell ws a v).cells mr.anchor = v ∧
      ∀ c, c ≠ mr.anchor → (write_to_cell ws a v).cells c = ws.cells c) ∧
    (∀ (ws : Worksheet) (a : CellAddr) (v : Value) (c : CellAddr) (mr' : MergedRange),
      disjointMerged ws.merged → mr' ∈ ws.merged → inRange c mr' = true →
      c ≠ mr'.anchor → (write_to_cell ws a v).cells c = ws.cells c) ∧
    (∀ (ws : Worksheet) (a : CellAddr) (v v' : Value),
      write_to_cell (write_to_cell ws a v) a v' = write_to_cell ws a v') := by
  refine ⟨?_, ?_, ?_⟩
  · intro ws a v mr hd hm ha
    have hres : resolveCell ws.merged a = mr.anchor := resolveCell_of_mem hd hm ha
    constructor
    · simp [write_to_cell, hres]
    · intro c hc
      simp [write_to_cell, hres, hc]
  · intro ws a v c mr' hd hm' hc' hcanchor
    by_cases hC : c = resolveCell ws.merged a
    · exfalso
      cases hfind : ws.merged.find? fun mr => inRange a mr with
      | some mr0 =>
          have h0a : inRange a mr0 = true := List.find?_some hfind
          have h0m : mr0 ∈ ws.merged := List.mem_of_find?_eq_some hfind
          have hres : resolveCell ws.merged a = mr0.anchor := by
            rw [resolveCell, hfind]
          rw [hres] at hC
          have hanchor0 : inRange mr0.anchor mr0 = true := anchor_inRange h0a
          rw [← hC] at hanchor0
          have : mr0 = mr' := disjoint_unique_range hd h0m hm' hanchor0 hc'
          rw [← this] at hcanchor
          exact hcanchor hC
      | none =>
          have hres : resolveCell ws.merged a = a := by
            rw [resolveCell, hfind]
          rw [hres] at hC
          subst hC
          exact List.find?_eq_none.mp hfind mr' hm' hc'
    · simp [write_to_cell, hC]
  · intro ws a v v'
    cases ws with
    | mk cells merged =>
        simp only [write_to_cell]
        congr 1
        funext c
        by_cases hc : c = resolveCell merged a
        · simp [hc]
        · simp [hc]

/-- C5 witness: in the target with the single merged region rows 1–2 ×
columns 1–2, a write addressed at the non-anchor cell `(2,2)` lands on the
anchor `(1,1)` and leaves `(2,2)` itself unchanged, and a repeated write
to the same address keeps only the last value. -/
theorem write_to_cell_merged_aware_witness :
    (write_to_cell tgtMerged ⟨2, 2⟩ (.vInt 9)).cells (MergedRange.anchor ⟨1, 1, 2, 2⟩) =
      .vInt 9 ∧
    (write_to_cell tgtMerged ⟨2, 2⟩ (.vInt 9)).cells ⟨2, 2⟩ = tgtMerged.cells ⟨2, 2⟩ ∧
    write_to_cell (write_to_cell tgtMerged ⟨2, 2⟩ (.vInt 8)) ⟨2, 2⟩ (.vInt 9) =
      write_to_cell tgtMerged ⟨2, 2⟩ (.vInt 9) :=
  have h := write_to_cell_merged_aware.1 tgtMerged ⟨2, 2⟩ (.vInt 9) ⟨1, 1, 2, 2⟩
    (by simp [disjointMerged, tgtMerged]) (by simp [tgtMerged]) (by decide)
  ⟨h.1, h.2 ⟨2, 2⟩ (by decide),
   write_to_cell_merged_aware.2.2 tgtMerged ⟨2, 2⟩ (.vInt 8) (.vInt 9)⟩

/-- C6: a processed mapping row (both columns truthy) whose normalized key
matches no source record appends the original column-A value to
`missing_keys`, writes no target cell, and the loop continues (the step
returns `.ok`). -/
theorem unmatched_row_appends_original (sd : List SourceRecord) (mws : Sheet)
    (factor : ℚ) (st : ETLState) (r : ℕ)
    (h1 : truthy (mws.cell 1 r) = true) (h2 : truthy (mws.cell 2 r) = true)
    (h3 : findMatch sd (normalize (mws.cell 1 r)) = none) :
    etlStep sd mws factor st r =
      .ok { st with missing_keys := st.missing_keys ++ [mws.cell 1 r] } :=
  etlStep_unmatched (by simp [rowProcessed, h1, h2]) h3

/-- C6 witness: the spec's Globex scenario — key `"Globex"` matches no
record of the Acme index, so the step appends the original string
`"Globex"`, leaves the target untouched and continues. -/
theorem unmatched_row_appends_original_witness :
    etlStep (loadSourceData srcAcme) mapGlobex 2 ⟨0, [], tgtEmpty⟩ 2 =
      .ok ⟨0, [Value.vStr "Globex".data], tgtEmpty⟩ :=
  unmatched_row_appends_original (loadSourceData srcAcme) mapGlobex 2
    ⟨0, [], tgtEmpty⟩ 2 (by decide) (by decide) (by decide)

/-- C7 counterexample: a per-row data error — the unparseable string
`"abc"` in the target-row cell of a matched mapping row — aborts the whole
run (`int(target_row)` raises `ValueError`, escaping the per-row
processing), so per-row data errors are not always absorbed locally. -/
theorem int_parse_aborts_run :
    runETL srcAcme mapBadRow tgtEmpty 1 = .error () := by rfl

/-- The loop completes whenever every processed matched row has a
column-B value that `int()` parses to a row number `≥ 1`; value-cell and
key-cell data errors never abort it. -/
lemma etlLoop_ok_of_target_rows (sd : List SourceRecord) (mws : Sheet) (factor : ℚ) :
    ∀ (rows : List ℕ) (st : ETLState),
      (∀ r ∈ rows, (rowProcessed mws r && (rowMatch sd mws r).isSome) = true →
        ((pyInt (mws.cell 2 r)).any fun n => decide (1 ≤ n)) = true) →
      ∃ st', etlLoop sd mws factor rows st = .ok st' := by
  intro rows
  induction rows with
  | nil => exact fun st _ => ⟨st, rfl⟩
  | cons r rs ih =>
      intro st h
      have hrs : ∀ r' ∈ rs, (rowProcessed mws r' && (rowMatch sd mws r').isSome) = true →
          ((pyInt (mws.cell 2 r')).any fun n => decide (1 ≤ n)) = true :=
        fun r' hr' => h r' (List.mem_cons_of_mem r hr')
      by_cases hp : rowProcessed mws r = true
      · cases hm : rowMatch sd mws r with
        | none =>
            obtain ⟨st', hst'⟩ := ih _ hrs
            exact ⟨st', by rw [etlLoop, etlStep_unmatched hp hm]; exact hst'⟩
        | some m =>
            have hok := h r (List.mem_cons_self r rs) (by simp [hp, hm])
            cases hpi : pyInt (mws.cell 2 r) with
            | none => rw [hpi] at hok; cases hok
            | some tr =>
                rw [hpi, Option.any_some, decide_eq_true_eq] at hok
                obtain ⟨st', hst'⟩ := ih _ hrs
                exact ⟨st', by rw [etlLoop, etlStep_matched hp hm hpi hok]; exact hst'⟩
      · have hp' : rowProcessed mws r = false := by simpa using hp
        obtain ⟨st', hst'⟩ := ih _ hrs
        exact ⟨st', by rw [etlLoop, etlStep_not_processed hp']; exact hst'⟩

/-- C7 amended: per-row data errors in key and value cells are absorbed —
falsy keys/rows are skipped, unparseable numbers coerce to `0` via
`to_number`, unmatched keys only aggregate — and the run completes,
*except* that a processed matched mapping row whose column-B value does
not `int()`-parse to a row number `≥ 1` raises and aborts the whole
run. -/
theorem per_row_errors_absorbed_except_target_row (sws mws : Sheet)
    (tws : Worksheet) (factor : ℚ)
    (h : ∀ r ∈ dataRows mws,
      (rowProcessed mws r && (rowMatch (loadSourceData sws) mws r).isSome) = true →
      ((pyInt (mws.cell 2 r)).any fun n => decide (1 ≤ n)) = true) :
    ∃ st', runETL sws mws tws factor = .ok st' := by
  rw [runETL]
  exact etlLoop_ok_of_target_rows (loadSourceData sws) mws factor (dataRows mws)
    ⟨0, [], tws⟩ h

/-- C7 amended witness: a source sheet whose value cells hold unparseable
text (`"no digits"`, `"n/a"` — coerced to `0`) still lets the whole run
complete. -/
theorem per_row_errors_absorbed_witness :
    ∃ st', runETL srcJunkValues mapAcme tgtEmpty 2 = .ok st' :=
  per_row_errors_absorbed_except_target_row srcJunkValues mapAcme tgtEmpty 2
    (by decide)

/-- A `filterMap` of a guarded `some` is `map` after `filter`. -/
lemma filterMap_guard_eq_map_filter {α β : Type} (p : α → Bool) (f : α → β)
    (l : List α) :
    (l.filterMap fun a => if p a then some (f a) else none) = (l.filter p).map f := by
  induction l with
  | nil => rfl
  | cons a t ih =>
      by_cases hp : p a <;> simp [List.filterMap_cons, List.filter_cons, hp, ih]

/-- C8 counterexample: mapping row 2 of `srcZeroKey` holds the integer `0`
in column B — a non-empty cell — yet the loader excludes it, because the
code tests Python truthiness (`if key:`), not non-emptiness. -/
theorem zero_key_row_excluded :
    (2 ∈ dataRows srcZeroKey) ∧ srcZeroKey.cell 2 2 ≠ Value.vNone ∧
    loadSourceData srcZeroKey = [] :=
  ⟨by decide, by decide, by rfl⟩

/-- C8 amended: a source row is included exactly when its column-B value
is *truthy* (non-`None` and not `0`, `""` or `False`); each included row
becomes a `SourceRecord` carrying the raw key, normalized key and coerced
current/previous values, in row order and with no deduplication (the map
keeps one record per truthy row, duplicates included). -/
theorem load_source_truthy_rows (ws : Sheet) :
    loadSourceData ws =
      ((dataRows ws).filter fun r => truthy (ws.cell 2 r)).map fun r =>
        { raw_key := pyStr (ws.cell 2 r)
          norm_key := normalize (ws.cell 2 r)
          current := to_number (ws.cell 4 r)
          previous := to_number (ws.cell 6 r) } := by
  rw [loadSourceData]
  exact filterMap_guard_eq_map_filter (fun r => truthy (ws.cell 2 r)) _ (dataRows ws)

/-- C9: a mapping key that normalizes to the empty string matches the
head of the source index (the empty string is a substring of every
normalized key), and whenever some loaded source record has an empty
normalized key, a completed run reports no missing keys at all. -/
theorem empty_norm_key_always_matches :
    (∀ (sd : List SourceRecord) (k : Value), normalize k = [] →
      findMatch sd (normalize k) = sd.head?) ∧
    (∀ (sws mws : Sheet) (tws : Worksheet) (factor : ℚ) (st' : ETLState),
      (∃ src ∈ loadSourceData sws, src.norm_key = []) →
      runETL sws mws tws factor = .ok st' → st'.missing_keys = []) := by
  constructor
  · intro sd k hk
    rw [hk]
    cases sd with
    | nil => rfl
    | cons s t =>
        simp [findMatch, List.find?_cons, matchPred, containsSub_nil]
  · intro sws mws tws factor st' hsrc hrun
    obtain ⟨src, hmem, hnorm⟩ := hsrc
    rw [runETL] at hrun
    obtain ⟨-, hm, -⟩ :=
      etlLoop_ok_spec (loadSourceData sws) mws factor (dataRows mws) ⟨0, [], tws⟩ st' hrun
    have hall : ∀ r : ℕ, (rowMatch (loadSourceData sws) mws r).isSome = true := by
      intro r
      apply List.find?_isSome.mpr
      refine ⟨src, hmem, ?_⟩
      simp [matchPred, hnorm, containsSub_nil]
    have hfilter :
        ((dataRows mws).filter fun r =>
          rowProcessed mws r && !(rowMatch (loadSourceData sws) mws r).isSome) = [] := by
      apply List.filter_eq_nil_iff.mpr
      intro r _
      simp [hall r]
    rw [hfilter] at hm
    simpa using hm

attribute [local semireducible] Rat.mul in
/-- C9 witness: the purely numeric mapping key `123` normalizes to `""`
and matches the head of the index; and with the letters-free source key
`7` (empty normalized key) in the index, the Globex run completes with no
missing keys. -/
theorem empty_norm_key_always_matches_witness :
    findMatch (loadSourceData srcNumKey) (normalize (.vInt 123)) =
      (loadSourceData srcNumKey).head? ∧
    numKeyFinal.missing_keys = [] :=
  ⟨empty_norm_key_always_matches.1 (loadSourceData srcNumKey) (.vInt 123) (by decide),
   empty_norm_key_always_matches.2 srcNumKey mapGlobex tgtEmpty 1 numKeyFinal
     (by decide) (by rfl)⟩

/-- A sequence of writes changes a cell only if that cell is the resolved
landing cell of one of the writes. -/
lemma applyWrites_changed (l : List (CellAddr × Value)) (ws : Worksheet)
    (c : CellAddr) (h : (applyWrites ws l).cells c ≠ ws.cells c) :
    ∃ p ∈ l, c = resolveCell ws.merged p.1 := by
  induction l generalizing ws with
  | nil => exact absurd rfl h
  | cons p rest ih =>
      have hsplit : applyWrites ws (p :: rest) =
          applyWrites (write_to_cell ws p.1 p.2) rest := rfl
      rw [hsplit] at h
      by_cases hc :
          (applyWrites (write_to_cell ws p.1 p.2) rest).cells c =
            (write_to_cell ws p.1 p.2).cells c
      · have hhead : (write_to_cell ws p.1 p.2).cells c ≠ ws.cells c := by
          rw [← hc]
          exact h
        have hcc : c = resolveCell ws.merged p.1 := by
          by_contra hne
          exact hhead (by simp [write_to_cell, hne])
        exact ⟨p, List.mem_cons_self p rest, hcc⟩
      · obtain ⟨q, hq, hcq⟩ := ih (write_to_cell ws p.1 p.2) hc
        rw [write_to_cell_merged] at hcq
        exact ⟨q, List.mem_cons_of_mem p hq, hcq⟩

/-- Every write of a run comes from a processed matched row with a parsed
target row `tr ≥ 1`, and is addressed at `G{tr}` or `J{tr}`. -/
lemma mem_allWrites {sd : List SourceRecord} {mws : Sheet} {factor : ℚ}
    {p : CellAddr × Value} (h : p ∈ allWrites sd mws factor) :
    ∃ r ∈ matchedRows sd mws, ∃ tr : ℤ,
      pyInt (mws.cell 2 r) = some tr ∧ 1 ≤ tr ∧
      (p.1 = ⟨7, tr.toNat⟩ ∨ p.1 = ⟨10, tr.toNat⟩) := by
  simp only [allWrites, List.mem_flatMap] at h
  obtain ⟨r, hr, hp⟩ := h
  rw [rowWrites] at hp
  split at hp
  · rename_i hproc
    split at hp
    · rename_i m hm
      split at hp
      · rename_i tr hpi
        split at hp
        · rename_i htr
          refine ⟨r, List.mem_filter.mpr ⟨hr, by simp [hproc, hm]⟩, tr, hpi, htr, ?_⟩
          rw [List.mem_cons, List.mem_singleton] at hp
          rcases hp with hp | hp
          · left; rw [hp]
          · right; rw [hp]
        · cases hp
      · cases hp
    · cases hp
  · cases hp

/-- C10: a completed run changes nothing outside the selected target
sheet, and inside it only the cells `G{tr}`/`J{tr}` of the matched
mapping rows — or, when such an address lies in a merged region, that
region's anchor (both captured by `resolveCell`). -/
theorem run_frame_effect (sws mws : Sheet) (doc : List Char → Worksheet)
    (tname : List Char) (factor : ℚ) (st' : ETLState)
    (doc' : List Char → Worksheet)
    (h : runETLDoc sws mws doc tname factor = .ok (st', doc')) :
    (∀ n, n ≠ tname → doc' n = doc n) ∧
    (∀ c, (doc' tname).cells c ≠ (doc tname).cells c →
      ∃ r ∈ matchedRows (loadSourceData sws) mws, ∃ tr : ℤ,
        pyInt (mws.cell 2 r) = some tr ∧ 1 ≤ tr ∧
        (c = resolveCell (doc tname).merged ⟨7, tr.toNat⟩ ∨
         c = resolveCell (doc tname).merged ⟨10, tr.toNat⟩)) := by
  rw [runETLDoc] at h
  cases hrun : runETL sws mws (doc tname) factor with
  | error e => rw [hrun] at h; cases h
  | ok st0 =>
      rw [hrun] at h
      injection h with h
      have hst : st0 = st' := congrArg Prod.fst h
      have hdoc : (fun n => if n = tname then st0.target else doc n) = doc' :=
        congrArg Prod.snd h
      constructor
      · intro n hn
        rw [← hdoc]
        simp [hn]
      · intro c hc
        have hsheet : doc' tname = st0.target := by
          rw [← hdoc]
          simp
        rw [hsheet] at hc
        rw [runETL] at hrun
        obtain ⟨-, -, ht⟩ :=
          etlLoop_ok_spec (loadSourceData sws) mws factor (dataRows mws)
            ⟨0, [], doc tname⟩ st0 hrun
        rw [ht] at hc
        obtain ⟨p, hp, hcp⟩ := applyWrites_changed _ _ _ hc
        obtain ⟨r, hr, tr, hpi, htr, hps⟩ := mem_allWrites hp
        refine ⟨r, hr, tr, hpi, htr, ?_⟩
        rcases hps with hps | hps
        · left; rw [hcp, hps]
        · right; rw [hcp, hps]

attribute [local semireducible] Rat.mul in
/-- C10 witness: the Acme run as a document transform leaves the sheet
named `"X"` exactly as supplied. -/
theorem run_frame_effect_witness :
    acmeFinalDoc "X".data = docEmpty "X".data :=
  (run_frame_effect srcAcme mapAcme docEmpty "T".data 2 acmeFinal acmeFinalDoc
    (by rfl)).1 "X".data (by decide)

end ExcelMapper
